import Mathlib

/-!
Verification of the Comet Edge Proxy (CEP) core against its design document.

The JavaScript sources (`src/api/proxy.js`, `src/public/cep.js`) are shallowly
embedded: JavaScript strings are modelled as their UTF-8 byte sequences
(`List Nat`, every byte `< 256`), fallible operations return `Option`/`Except`,
and the host-provided pieces (the WHATWG URL parser behind `new URL`, the
streaming HTML parser behind `HTMLRewriter`, and the network `fetch`) are
parameters of the embedded functions.
-/

namespace Comet

/-- A JavaScript string, modelled as its sequence of UTF-8 bytes. -/
abbrev JSStr := List Nat

/-- Bytes of an ASCII string literal (code points coincide with UTF-8 bytes). -/
def ascii (s : String) : JSStr := s.data.map Char.toNat

/-- `s.startsWith(p)` on the byte model. -/
def jsStartsWith (s p : JSStr) : Bool := List.isPrefixOf p s

/-- `s.includes(sub)` on the byte model: `sub` occurs contiguously in `s`. -/
def jsIncludes : JSStr → JSStr → Bool
  | [], sub => List.isEmpty sub
  | c :: rest, sub => List.isPrefixOf sub (c :: rest) || jsIncludes rest sub

/-- Characters `encodeURIComponent` leaves unescaped:
`A-Z a-z 0-9 - _ . ! ~ * ' ( )`. -/
def isUnreservedByte (b : Nat) : Bool :=
  (65 ≤ b && b ≤ 90) || (97 ≤ b && b ≤ 122) || (48 ≤ b && b ≤ 57) ||
  b == 45 || b == 95 || b == 46 || b == 33 || b == 126 || b == 42 ||
  b == 39 || b == 40 || b == 41

/-- Byte code of the upper-case hex digit for `n < 16`. -/
def hexDigit (n : Nat) : Nat := if n < 10 then 48 + n else 55 + n

/-- `encodeURIComponent`: unreserved bytes pass through, every other byte
becomes `%XY` (37 is the code of the percent sign). -/
def encodeURIComponentBytes : JSStr → JSStr
  | [] => []
  | b :: bs =>
    if isUnreservedByte b then b :: encodeURIComponentBytes bs
    else 37 :: hexDigit (b / 16) :: hexDigit (b % 16) :: encodeURIComponentBytes bs

/-- Value of a hex digit character, accepting both cases. -/
def hexVal (c : Nat) : Option Nat :=
  if 48 ≤ c ∧ c ≤ 57 then some (c - 48)
  else if 65 ≤ c ∧ c ≤ 70 then some (c - 55)
  else if 97 ≤ c ∧ c ≤ 102 then some (c - 87)
  else none

/-- A UTF-8 continuation byte `10xxxxxx`. -/
def isCont (b : Nat) : Bool := 128 ≤ b && b ≤ 191

/-- Allowed first continuation byte of a three-byte UTF-8 sequence with
leader `b` (excludes overlong encodings after `E0` and surrogate code points
after `ED`). -/
def isCont1of3 (b b1 : Nat) : Bool :=
  if b = 224 then 160 ≤ b1 && b1 ≤ 191
  else if b = 237 then 128 ≤ b1 && b1 ≤ 159
  else isCont b1

/-- Allowed first continuation byte of a four-byte UTF-8 sequence with
leader `b` (excludes overlong encodings after `F0` and code points above
`U+10FFFF` after `F4`). -/
def isCont1of4 (b b1 : Nat) : Bool :=
  if b = 240 then 144 ≤ b1 && b1 ≤ 191
  else if b = 244 then 128 ≤ b1 && b1 ≤ 143
  else isCont b1

/-- First phase of `decodeURIComponent` (ECMA-262 `Decode`): split the input
into literal characters (`false`) and `%XY` escape octets (`true`); `none`
models the `URIError` thrown on a malformed escape sequence. -/
def percentTokens : JSStr → Option (List (Bool × Nat))
  | [] => some []
  | c :: rest =>
    if c = 37 then
      match rest with
      | h :: l :: rest2 =>
        match hexVal h, hexVal l with
        | some hv, some lv =>
          (percentTokens rest2).map (fun ts => (true, 16 * hv + lv) :: ts)
        | _, _ => none
      | _ => none
    else (percentTokens rest).map (fun ts => (false, c) :: ts)

/-- Second phase of `decodeURIComponent` (ECMA-262 `Decode`): literal
characters pass through; an escape octet with the high bit set must lead a
complete, minimal UTF-8 encoding of a Unicode code point whose continuation
octets are themselves escapes; `none` models the `URIError` thrown on every
other octet sequence (stray continuations, overlongs, surrogates, code
points above `U+10FFFF`, truncated or non-escape continuations). -/
def utf8Assemble : List (Bool × Nat) → Option JSStr
  | [] => some []
  | (false, b) :: ts => (utf8Assemble ts).map (fun r => b :: r)
  | (true, b) :: ts =>
    if b < 128 then (utf8Assemble ts).map (fun r => b :: r)
    else if 194 ≤ b ∧ b ≤ 223 then
      match ts with
      | (true, b1) :: ts2 =>
        if isCont b1 then (utf8Assemble ts2).map (fun r => b :: b1 :: r)
        else none
      | _ => none
    else if 224 ≤ b ∧ b ≤ 239 then
      match ts with
      | (true, b1) :: (true, b2) :: ts2 =>
        if isCont1of3 b b1 && isCont b2 then
          (utf8Assemble ts2).map (fun r => b :: b1 :: b2 :: r)
        else none
      | _ => none
    else if 240 ≤ b ∧ b ≤ 244 then
      match ts with
      | (true, b1) :: (true, b2) :: (true, b3) :: ts2 =>
        if isCont1of4 b b1 && isCont b2 && isCont b3 then
          (utf8Assemble ts2).map (fun r => b :: b1 :: b2 :: b3 :: r)
        else none
      | _ => none
    else none

/-- `decodeURIComponent`: percent-decoding per ECMA-262 `Decode`; `none`
models the `URIError` thrown both on a malformed escape sequence and on
well-formed escapes that do not form a valid UTF-8 encoding of a code point
(such as a lone `%C3` or `%FF`). -/
def decodeURIComponentBytes (s : JSStr) : Option JSStr :=
  (percentTokens s).bind utf8Assemble

/-- `bs` is a strict (minimal, surrogate-free, `≤ U+10FFFF`) UTF-8 byte
sequence — equivalently, the UTF-8 encoding of some string. -/
def validUtf8 : JSStr → Bool
  | [] => true
  | b :: bs =>
    if b < 128 then validUtf8 bs
    else if 194 ≤ b ∧ b ≤ 223 then
      match bs with
      | b1 :: bs2 => isCont b1 && validUtf8 bs2
      | _ => false
    else if 224 ≤ b ∧ b ≤ 239 then
      match bs with
      | b1 :: b2 :: bs2 => isCont1of3 b b1 && isCont b2 && validUtf8 bs2
      | _ => false
    else if 240 ≤ b ∧ b ≤ 244 then
      match bs with
      | b1 :: b2 :: b3 :: bs2 =>
        isCont1of4 b b1 && isCont b2 && isCont b3 && validUtf8 bs2
      | _ => false
    else false

theorem hexVal_hexDigit : ∀ n < 16, hexVal (hexDigit n) = some n := by decide

theorem percentTokens_cons_ne (c : Nat) (rest : JSStr) (h : ¬ c = 37) :
    percentTokens (c :: rest) =
      (percentTokens rest).map (fun ts => (false, c) :: ts) := by
  rw [percentTokens.eq_def]
  dsimp only
  rw [if_neg h]

theorem percentTokens_cons_pct (h l : Nat) (rest : JSStr) (hv lv : Nat)
    (hh : hexVal h = some hv) (hl : hexVal l = some lv) :
    percentTokens (37 :: h :: l :: rest) =
      (percentTokens rest).map (fun ts => (true, 16 * hv + lv) :: ts) := by
  rw [percentTokens.eq_def]
  dsimp only
  rw [if_pos rfl]
  simp only [hh, hl]

theorem percentTokens_encode (bs : JSStr) (h : ∀ b ∈ bs, b < 256) :
    percentTokens (encodeURIComponentBytes bs) =
      some (bs.map (fun b => (!isUnreservedByte b, b))) := by
  induction bs with
  | nil => rfl
  | cons b bs ih =>
    have hb : b < 256 := h b (List.mem_cons_self b bs)
    have hbs : ∀ x ∈ bs, x < 256 := fun x hx => h x (List.mem_cons_of_mem b hx)
    rw [List.map_cons]
    by_cases hu : isUnreservedByte b
    · have hb37 : ¬(b = 37) := by
        intro e; subst e; simp [isUnreservedByte] at hu
      rw [encodeURIComponentBytes, if_pos hu, percentTokens_cons_ne b _ hb37,
        ih hbs, hu]
      rfl
    · have hdiv : b / 16 < 16 := by omega
      have hmod : b % 16 < 16 := by omega
      rw [encodeURIComponentBytes, if_neg hu,
        percentTokens_cons_pct _ _ _ _ _ (hexVal_hexDigit (b / 16) hdiv)
          (hexVal_hexDigit (b % 16) hmod),
        ih hbs]
      have hrec : 16 * (b / 16) + b % 16 = b := by omega
      rw [hrec, Bool.eq_false_iff.mpr hu]
      rfl

theorem utf8Assemble_lit (b : Nat) (ts : List (Bool × Nat)) :
    utf8Assemble ((false, b) :: ts) =
      (utf8Assemble ts).map (fun r => b :: r) := rfl

theorem utf8Assemble_esc (b : Nat) (ts : List (Bool × Nat)) :
    utf8Assemble ((true, b) :: ts) =
      if b < 128 then (utf8Assemble ts).map (fun r => b :: r)
      else if 194 ≤ b ∧ b ≤ 223 then
        match ts with
        | (true, b1) :: ts2 =>
          if isCont b1 then (utf8Assemble ts2).map (fun r => b :: b1 :: r)
          else none
        | _ => none
      else if 224 ≤ b ∧ b ≤ 239 then
        match ts with
        | (true, b1) :: (true, b2) :: ts2 =>
          if isCont1of3 b b1 && isCont b2 then
            (utf8Assemble ts2).map (fun r => b :: b1 :: b2 :: r)
          else none
        | _ => none
      else if 240 ≤ b ∧ b ≤ 244 then
        match ts with
        | (true, b1) :: (true, b2) :: (true, b3) :: ts2 =>
          if isCont1of4 b b1 && isCont b2 && isCont b3 then
            (utf8Assemble ts2).map (fun r => b :: b1 :: b2 :: b3 :: r)
          else none
        | _ => none
      else none := by
  cases ts with
  | nil => rfl
  | cons t1 ts1 =>
    obtain ⟨c1, b1⟩ := t1
    cases c1 with
    | false => rfl
    | true =>
      cases ts1 with
      | nil => rfl
      | cons t2 ts2 =>
        obtain ⟨c2, b2⟩ := t2
        cases c2 with
        | false => rfl
        | true =>
          cases ts2 with
          | nil => rfl
          | cons t3 ts3 =>
            obtain ⟨c3, b3⟩ := t3
            cases c3 with
            | false => rfl
            | true => rfl

theorem utf8Assemble_esc_ascii (b : Nat) (ts : List (Bool × Nat))
    (h : b < 128) :
    utf8Assemble ((true, b) :: ts) =
      (utf8Assemble ts).map (fun r => b :: r) := by
  rw [utf8Assemble_esc, if_pos h]

theorem utf8Assemble_esc_two (b b1 : Nat) (ts : List (Bool × Nat))
    (h1 : ¬ b < 128) (h2 : 194 ≤ b ∧ b ≤ 223) (hc : isCont b1 = true) :
    utf8Assemble ((true, b) :: (true, b1) :: ts) =
      (utf8Assemble ts).map (fun r => b :: b1 :: r) := by
  rw [utf8Assemble_esc, if_neg h1, if_pos h2]
  dsimp only
  rw [if_pos hc]

theorem utf8Assemble_esc_three (b b1 b2 : Nat) (ts : List (Bool × Nat))
    (h1 : ¬ b < 128) (h2 : ¬(194 ≤ b ∧ b ≤ 223)) (h3 : 224 ≤ b ∧ b ≤ 239)
    (hc : (isCont1of3 b b1 && isCont b2) = true) :
    utf8Assemble ((true, b) :: (true, b1) :: (true, b2) :: ts) =
      (utf8Assemble ts).map (fun r => b :: b1 :: b2 :: r) := by
  rw [utf8Assemble_esc, if_neg h1, if_neg h2, if_pos h3]
  dsimp only
  rw [if_pos hc]

theorem utf8Assemble_esc_four (b b1 b2 b3 : Nat) (ts : List (Bool × Nat))
    (h1 : ¬ b < 128) (h2 : ¬(194 ≤ b ∧ b ≤ 223)) (h3 : ¬(224 ≤ b ∧ b ≤ 239))
    (h4 : 240 ≤ b ∧ b ≤ 244)
    (hc : (isCont1of4 b b1 && isCont b2 && isCont b3) = true) :
    utf8Assemble ((true, b) :: (true, b1) :: (true, b2) :: (true, b3) :: ts) =
      (utf8Assemble ts).map (fun r => b :: b1 :: b2 :: b3 :: r) := by
  rw [utf8Assemble_esc, if_neg h1, if_neg h2, if_neg h3, if_pos h4]
  dsimp only
  rw [if_pos hc]

theorem isUnreservedByte_lt_128 (b : Nat) (h : isUnreservedByte b = true) :
    b < 128 := by
  simp [isUnreservedByte] at h
  omega

theorem isUnreservedByte_of_ge (b : Nat) (h : 128 ≤ b) :
    isUnreservedByte b = false := by
  cases hx : isUnreservedByte b with
  | false => rfl
  | true => exact absurd (isUnreservedByte_lt_128 b hx) (by omega)

theorem isCont_bounds (b : Nat) (h : isCont b = true) : 128 ≤ b ∧ b < 256 := by
  simp [isCont] at h
  omega

theorem isCont1of3_bounds (b b1 : Nat) (h : isCont1of3 b b1 = true) :
    128 ≤ b1 ∧ b1 < 256 := by
  unfold isCont1of3 at h
  by_cases h0 : b = 224
  · rw [if_pos h0] at h
    simp at h
    omega
  · rw [if_neg h0] at h
    by_cases h4 : b = 237
    · rw [if_pos h4] at h
      simp at h
      omega
    · rw [if_neg h4] at h
      exact isCont_bounds b1 h

theorem isCont1of4_bounds (b b1 : Nat) (h : isCont1of4 b b1 = true) :
    128 ≤ b1 ∧ b1 < 256 := by
  unfold isCont1of4 at h
  by_cases h0 : b = 240
  · rw [if_pos h0] at h
    simp at h
    omega
  · rw [if_neg h0] at h
    by_cases h4 : b = 244
    · rw [if_pos h4] at h
      simp at h
      omega
    · rw [if_neg h4] at h
      exact isCont_bounds b1 h

theorem validUtf8_cons (b : Nat) (bs : JSStr) :
    validUtf8 (b :: bs) =
      if b < 128 then validUtf8 bs
      else if 194 ≤ b ∧ b ≤ 223 then
        match bs with
        | b1 :: bs2 => isCont b1 && validUtf8 bs2
        | _ => false
      else if 224 ≤ b ∧ b ≤ 239 then
        match bs with
        | b1 :: b2 :: bs2 => isCont1of3 b b1 && isCont b2 && validUtf8 bs2
        | _ => false
      else if 240 ≤ b ∧ b ≤ 244 then
        match bs with
        | b1 :: b2 :: b3 :: bs2 =>
          isCont1of4 b b1 && isCont b2 && isCont b3 && validUtf8 bs2
        | _ => false
      else false := by
  cases bs with
  | nil => rfl
  | cons b1 bs1 =>
    cases bs1 with
    | nil => rfl
    | cons b2 bs2 =>
      cases bs2 with
      | nil => rfl
      | cons b3 bs3 => rfl

/-- On a valid UTF-8 byte sequence, all bytes are in range, and `utf8Assemble`
succeeds on its tokenisation (ASCII bytes literal or escaped, all other
bytes escaped, as `encodeURIComponentBytes` produces), returning the bytes
unchanged. -/
theorem validUtf8_main :
    ∀ (n : Nat) (bs : JSStr), bs.length ≤ n → validUtf8 bs = true →
      (∀ b ∈ bs, b < 256) ∧
      utf8Assemble (bs.map (fun b => (!isUnreservedByte b, b))) = some bs := by
  intro n
  induction n with
  | zero =>
    intro bs hlen _
    cases bs with
    | nil => exact ⟨fun b hb => absurd hb (List.not_mem_nil b), rfl⟩
    | cons b bs => simp at hlen
  | succ n ih =>
    intro bs hlen hv
    cases bs with
    | nil => exact ⟨fun b hb => absurd hb (List.not_mem_nil b), rfl⟩
    | cons b rest =>
      rw [validUtf8_cons] at hv
      rw [List.map_cons]
      by_cases hr1 : b < 128
      · rw [if_pos hr1] at hv
        have hlen2 : rest.length ≤ n := by
          simp only [List.length_cons] at hlen
          omega
        obtain ⟨hb1, hb2⟩ := ih rest hlen2 hv
        refine ⟨?_, ?_⟩
        · intro x hx
          rcases List.mem_cons.mp hx with hx1 | hx2
          · omega
          · exact hb1 x hx2
        · by_cases hu : isUnreservedByte b = true
          · rw [hu]
            simp only [Bool.not_true]
            rw [utf8Assemble_lit, hb2]
            rfl
          · rw [Bool.eq_false_iff.mpr hu]
            simp only [Bool.not_false]
            rw [utf8Assemble_esc_ascii b _ hr1, hb2]
            rfl
      · rw [if_neg hr1] at hv
        by_cases hr2 : 194 ≤ b ∧ b ≤ 223
        · rw [if_pos hr2] at hv
          cases rest with
          | nil => exact absurd hv (by dsimp only; exact Bool.false_ne_true)
          | cons b1 bs2 =>
            dsimp only at hv
            rw [Bool.and_eq_true] at hv
            obtain ⟨hc, hv2⟩ := hv
            have hlen2 : bs2.length ≤ n := by
              simp only [List.length_cons] at hlen
              omega
            obtain ⟨hb1, hb2⟩ := ih bs2 hlen2 hv2
            obtain ⟨hc1, hc2⟩ := isCont_bounds b1 hc
            refine ⟨?_, ?_⟩
            · intro x hx
              rcases List.mem_cons.mp hx with hx1 | hx2
              · omega
              · rcases List.mem_cons.mp hx2 with hx3 | hx4
                · omega
                · exact hb1 x hx4
            · rw [List.map_cons, isUnreservedByte_of_ge b (by omega),
                isUnreservedByte_of_ge b1 hc1]
              simp only [Bool.not_false]
              rw [utf8Assemble_esc_two b b1 _ hr1 hr2 hc, hb2]
              rfl
        · rw [if_neg hr2] at hv
          by_cases hr3 : 224 ≤ b ∧ b ≤ 239
          · rw [if_pos hr3] at hv
            cases rest with
            | nil => exact absurd hv (by dsimp only; exact Bool.false_ne_true)
            | cons b1 rest2 =>
              cases rest2 with
              | nil => exact absurd hv (by dsimp only; exact Bool.false_ne_true)
              | cons b2 bs2 =>
                dsimp only at hv
                rw [Bool.and_eq_true] at hv
                obtain ⟨hc12, hv2⟩ := hv
                have hlen2 : bs2.length ≤ n := by
                  simp only [List.length_cons] at hlen
                  omega
                obtain ⟨hb1, hb2⟩ := ih bs2 hlen2 hv2
                have hcc := hc12
                rw [Bool.and_eq_true] at hcc
                obtain ⟨hc1, hc2⟩ := hcc
                obtain ⟨hc1a, hc1b⟩ := isCont1of3_bounds b b1 hc1
                obtain ⟨hc2a, hc2b⟩ := isCont_bounds b2 hc2
                refine ⟨?_, ?_⟩
                · intro x hx
                  rcases List.mem_cons.mp hx with hx1 | hx2
                  · omega
                  · rcases List.mem_cons.mp hx2 with hx3 | hx4
                    · omega
                    · rcases List.mem_cons.mp hx4 with hx5 | hx6
                      · omega
                      · exact hb1 x hx6
                · rw [List.map_cons, List.map_cons,
                    isUnreservedByte_of_ge b (by omega),
                    isUnreservedByte_of_ge b1 hc1a,
                    isUnreservedByte_of_ge b2 hc2a]
                  simp only [Bool.not_false]
                  rw [utf8Assemble_esc_three b b1 b2 _ hr1 hr2 hr3 hc12, hb2]
                  rfl
          · rw [if_neg hr3] at hv
            by_cases hr4 : 240 ≤ b ∧ b ≤ 244
            · rw [if_pos hr4] at hv
              cases rest with
              | nil => exact absurd hv (by dsimp only; exact Bool.false_ne_true)
              | cons b1 rest2 =>
                cases rest2 with
                | nil => exact absurd hv (by dsimp only; exact Bool.false_ne_true)
                | cons b2 rest3 =>
                  cases rest3 with
                  | nil =>
                    exact absurd hv (by dsimp only; exact Bool.false_ne_true)
                  | cons b3 bs2 =>
                    dsimp only at hv
                    rw [Bool.and_eq_true] at hv
                    obtain ⟨hc123, hv2⟩ := hv
                    have hlen2 : bs2.length ≤ n := by
                      simp only [List.length_cons] at hlen
                      omega
                    obtain ⟨hb1, hb2⟩ := ih bs2 hlen2 hv2
                    have hcc := hc123
                    rw [Bool.and_eq_true, Bool.and_eq_true] at hcc
                    obtain ⟨⟨hc1, hc2⟩, hc3⟩ := hcc
                    obtain ⟨hc1a, hc1b⟩ := isCont1of4_bounds b b1 hc1
                    obtain ⟨hc2a, hc2b⟩ := isCont_bounds b2 hc2
                    obtain ⟨hc3a, hc3b⟩ := isCont_bounds b3 hc3
                    refine ⟨?_, ?_⟩
                    · intro x hx
                      rcases List.mem_cons.mp hx with hx1 | hx2
                      · omega
                      · rcases List.mem_cons.mp hx2 with hx3 | hx4
                        · omega
                        · rcases List.mem_cons.mp hx4 with hx5 | hx6
                          · omega
                          · rcases List.mem_cons.mp hx6 with hx7 | hx8
                            · omega
                            · exact hb1 x hx8
                    · rw [List.map_cons, List.map_cons, List.map_cons,
                        isUnreservedByte_of_ge b (by omega),
                        isUnreservedByte_of_ge b1 hc1a,
                        isUnreservedByte_of_ge b2 hc2a,
                        isUnreservedByte_of_ge b3 hc3a]
                      simp only [Bool.not_false]
                      rw [utf8Assemble_esc_four b b1 b2 b3 _ hr1 hr2 hr3 hr4
                        hc123, hb2]
                      rfl
            · rw [if_neg hr4] at hv
              exact absurd hv Bool.false_ne_true

theorem validUtf8_bytes_lt (bs : JSStr) (h : validUtf8 bs = true) :
    ∀ b ∈ bs, b < 256 :=
  (validUtf8_main bs.length bs (Nat.le_refl _) h).1

theorem decode_encode (bs : JSStr) (h : validUtf8 bs = true) :
    decodeURIComponentBytes (encodeURIComponentBytes bs) = some bs := by
  unfold decodeURIComponentBytes
  rw [percentTokens_encode bs (validUtf8_bytes_lt bs h)]
  exact (validUtf8_main bs.length bs (Nat.le_refl _) h).2

/-- `ElementHandler.rewriteUrl` from `src/api/proxy.js`: returns the input
unchanged when it is empty or uses a `data:` or `javascript:` scheme,
otherwise percent-encodes it and routes it through `/proxy/`. -/
def rewriteUrl (url : JSStr) : JSStr :=
  if url.isEmpty || jsStartsWith url (ascii "data:") ||
      jsStartsWith url (ascii "javascript:") then url
  else ascii "/proxy/" ++ encodeURIComponentBytes url

namespace URLUtils

/-- `URLUtils.encode` from `src/public/cep.js`. The WHATWG resolution
`new URL(url, window.location.origin).href` is host-provided, so it is a
parameter `normalize`; `none` models the constructor throwing, in which case
the catch block returns the input unchanged (fail open). -/
def encode (normalize : JSStr → Option JSStr) (url : JSStr) : JSStr :=
  match normalize url with
  | some absolute => encodeURIComponentBytes absolute
  | none => url

/-- `URLUtils.decode` from `src/public/cep.js`: percent-decodes, returning
the input unchanged when decoding throws (fail open). -/
def decode (encoded : JSStr) : JSStr :=
  match decodeURIComponentBytes encoded with
  | some s => s
  | none => encoded

/-- `URLUtils.rewrite` from `src/public/cep.js`: identity on empty, `data:`,
`javascript:` and `blob:` inputs, otherwise prefixes the proxy endpoint. -/
def rewrite (normalize : JSStr → Option JSStr) (url : JSStr) : JSStr :=
  if url.isEmpty || jsStartsWith url (ascii "data:") ||
      jsStartsWith url (ascii "javascript:") ||
      jsStartsWith url (ascii "blob:") then url
  else ascii "/proxy/" ++ encode normalize url

end URLUtils

/-- The `DEV_FEATURES` object of the Edge Config; `none` models an absent
(JavaScript `undefined`) field. -/
structure DevFeatures where
  eruda : Option Bool := none
  customTheme : Option Bool := none
deriving DecidableEq

/-- The Edge Config object returned by `getEdgeConfig` in `src/api/proxy.js`. -/
structure EdgeConfig where
  DEV_FEATURES : Option DevFeatures := none
  ENCODING_KEY : JSStr := []
  BLOCKLIST : List JSStr := []
deriving DecidableEq

/-- `getEdgeConfig` from `src/api/proxy.js`: the default configuration
(the production Edge Config lookup is commented out in the source). -/
def getEdgeConfig : EdgeConfig :=
  { DEV_FEATURES := some { eruda := some true, customTheme := some false }
    ENCODING_KEY := ascii "comet-proxy-v1"
    BLOCKLIST := [] }

/-- The bootstrap markup `HeadHandler` always appends. -/
def bootstrapMarkup : String := "<script src=\"/cep.js\"></script>"

/-- The debug-tool (Eruda) markup `HeadHandler` conditionally appends. -/
def erudaMarkup : String :=
  "<script src=\"https://cdn.jsdelivr.net/npm/eruda@3.0.1/eruda.min.js\"></script>"

/-- The debug trigger control `BodyHandler` conditionally appends. -/
def debugTriggerMarkup : String :=
  "<div id=\"cep-debug-trigger\" style=\"position:fixed;bottom:10px;right:10px;z-index:999999;\">\n          <button onclick=\"window.comet && window.comet.activateEruda()\" \n                  style=\"width:40px;height:40px;border-radius:50%;background:#f44336;color:white;border:none;cursor:pointer;box-shadow:0 2px 10px rgba(0,0,0,0.3);font-size:20px;\">\n            🐛\n          </button>\n        </div>"

/-- `HeadHandler.element` from `src/api/proxy.js`, as the list of HTML
fragments it appends (in order) to the matched `head` element. -/
def headHandlerElement (cfg : EdgeConfig) : List String :=
  let devFeatures := cfg.DEV_FEATURES.getD {}
  [bootstrapMarkup] ++ (if devFeatures.eruda ≠ some false then [erudaMarkup] else [])

/-- `BodyHandler.element` from `src/api/proxy.js`, as the list of HTML
fragments it appends to the matched `body` element. -/
def bodyHandlerElement (cfg : EdgeConfig) : List String :=
  let devFeatures := cfg.DEV_FEATURES.getD {}
  if devFeatures.eruda ≠ some false then [debugTriggerMarkup] else []

/-- The debug-tool flag the handlers consult: `DEV_FEATURES.eruda` of the
config, after the `|| {}` fallback. -/
def erudaFlag (cfg : EdgeConfig) : Option Bool := (cfg.DEV_FEATURES.getD {}).eruda

/-- The attribute names `ElementHandler.element` rewrites. -/
def rewritableAttrs : List JSStr :=
  [ascii "href", ascii "src", ascii "action", ascii "data"]

/-- `element.getAttribute(name)`: value of the first attribute so named. -/
def getAttribute (attrs : List (JSStr × JSStr)) (name : JSStr) : Option JSStr :=
  (attrs.find? (fun p => decide (p.1 = name))).map Prod.snd

/-- `element.setAttribute(name, value)`: updates matching attributes in
place, preserving their position. -/
def setAttribute (attrs : List (JSStr × JSStr)) (name value : JSStr) :
    List (JSStr × JSStr) :=
  attrs.map (fun p => if p.1 = name then (p.1, value) else p)

/-- One iteration of the `attrs.forEach` loop in `ElementHandler.element`:
read the attribute, and when its value is truthy replace it with the
rewritten URL. -/
def rewriteStep (acc : List (JSStr × JSStr)) (attr : JSStr) :
    List (JSStr × JSStr) :=
  match getAttribute acc attr with
  | some v => if v.isEmpty then acc else setAttribute acc attr (rewriteUrl v)
  | none => acc

/-- `ElementHandler.element` from `src/api/proxy.js`: rewrites the values of
`href`, `src`, `action` and `data`, in that order. -/
def elementHandlerElement (attrs : List (JSStr × JSStr)) :
    List (JSStr × JSStr) :=
  rewritableAttrs.foldl rewriteStep attrs

/-- The tag names the orchestrator registers `ElementHandler` for, from the
selector `'a, link, script, img, iframe, form'`. -/
def rewritableTags : List JSStr :=
  [ascii "a", ascii "link", ascii "script", ascii "img", ascii "iframe", ascii "form"]

/-- Attribute processing applied to one element of the document: the
`ElementHandler` runs only on elements matched by the selector. -/
def processTag (tag : JSStr) (attrs : List (JSStr × JSStr)) :
    List (JSStr × JSStr) :=
  if tag ∈ rewritableTags then elementHandlerElement attrs else attrs

/-- Structural events produced by the host streaming HTML parser behind
`HTMLRewriter`: untouched text chunks, the `head` and `body` element events
the two injection handlers are registered on, and the start-tag events of
other elements with their attribute lists. -/
inductive HtmlEvent where
  | text (chunk : JSStr)
  | headEl
  | bodyEl
  | el (tag : JSStr) (attrs : List (JSStr × JSStr))
deriving DecidableEq

/-- Items of the transformed output stream: raw forwarded content, HTML
fragments appended by the injection handlers, and elements whose attributes
went through the attribute rewriter. -/
inductive OutEvent where
  | raw (chunk : JSStr)
  | injected (markup : String)
  | element (tag : JSStr) (attrs : List (JSStr × JSStr))
deriving DecidableEq

/-- Dispatch of one parse event to the registered handlers, as wired in the
orchestrator (`.on('head', ...).on('body', ...).on('a, link, script, img,
iframe, form', ...)`). -/
def rewriteEvent (cfg : EdgeConfig) : HtmlEvent → List OutEvent
  | .text c => [.raw c]
  | .headEl => (headHandlerElement cfg).map OutEvent.injected
  | .bodyEl => (bodyHandlerElement cfg).map OutEvent.injected
  | .el tag attrs => [.element tag (processTag tag attrs)]

/-- `rewriter.transform(targetResponse)` on the body: the host parser
(parameter `parse`) turns the byte stream into structural events and every
event is dispatched to the registered handlers. -/
def cometTransform (parse : JSStr → List HtmlEvent) (cfg : EdgeConfig)
    (body : JSStr) : List OutEvent :=
  (parse body).flatMap (rewriteEvent cfg)

/-- ASCII lower-casing of one byte, for the case-insensitive `Headers` API. -/
def lowerByte (b : Nat) : Nat := if 65 ≤ b ∧ b ≤ 90 then b + 32 else b

/-- ASCII lower-casing of a header name. -/
def lowerStr (s : JSStr) : JSStr := s.map lowerByte

/-- `headers.get(name)`: case-insensitive lookup. -/
def getHeader (hs : List (JSStr × JSStr)) (name : JSStr) : Option JSStr :=
  (hs.find? (fun p => decide (lowerStr p.1 = lowerStr name))).map Prod.snd

/-- `headers.set(name, value)`: replaces the value of a present header in
place, otherwise appends the pair. -/
def setHeader (hs : List (JSStr × JSStr)) (name value : JSStr) :
    List (JSStr × JSStr) :=
  if hs.any (fun p => decide (lowerStr p.1 = lowerStr name)) then
    hs.map (fun p => if lowerStr p.1 = lowerStr name then (p.1, value) else p)
  else hs ++ [(name, value)]

/-- An upstream `fetch` response: status, headers and raw body bytes. -/
structure Upstream where
  status : Nat
  headers : List (JSStr × JSStr)
  body : JSStr
deriving DecidableEq

/-- Body of a response the handler produces: raw bytes, or the transformed
stream of the HTML-rewriting branch. -/
inductive RespBody where
  | raw (bytes : JSStr)
  | stream (events : List OutEvent)
deriving DecidableEq

/-- A `Response` the handler returns to the client. -/
structure Response where
  status : Nat
  headers : List (JSStr × JSStr)
  body : RespBody
deriving DecidableEq

/-- Removes the first occurrence of `pat` from `s`; `none` when absent. -/
def removeFirst (pat : JSStr) : JSStr → Option JSStr
  | [] => if pat.isEmpty then some [] else none
  | c :: rest =>
    if List.isPrefixOf pat (c :: rest) then some ((c :: rest).drop pat.length)
    else (removeFirst pat rest).map (fun s => c :: s)

/-- `s.replace(pat, '')` with a string pattern: JavaScript replaces only the
first occurrence; when the pattern is absent the string is unchanged. -/
def jsReplaceFirst (s pat : JSStr) : JSStr := (removeFirst pat s).getD s

/-- The outcome of one handler invocation: either a returned `Response` or
an uncaught exception (with its message), together with the list of target
URLs fetched upstream, in order. -/
structure HandlerResult where
  result : Except JSStr Response
  fetchCalls : List JSStr

/-- Message of the `URIError` thrown by `decodeURIComponent`. -/
def uriMalformedMsg : JSStr := ascii "URIError: URI malformed"

/-- The default Edge Function handler from `src/api/proxy.js`. Host-provided
effects are parameters: `parse` is the streaming HTML parser behind
`HTMLRewriter`, `fetchFn url ua` is the upstream fetch (`Except.error msg`
models a rejected promise). `pathname` is `new URL(req.url).pathname` and
`userAgent` the request's user-agent header. The config `cfg` is what
`getEdgeConfig` yields for this request. Note that `decodeURIComponent` runs
before the `try` block, so its `URIError` is not caught. -/
def handler (cfg : EdgeConfig) (parse : JSStr → List HtmlEvent)
    (fetchFn : JSStr → JSStr → Except JSStr Upstream)
    (pathname : JSStr) (userAgent : Option JSStr) : HandlerResult :=
  let targetUrl := jsReplaceFirst pathname (ascii "/proxy/")
  match decodeURIComponentBytes targetUrl with
  | none => { result := .error uriMalformedMsg, fetchCalls := [] }
  | some decodedUrl =>
    if decodedUrl.isEmpty then
      { result := .ok { status := 400, headers := [],
                        body := .raw (ascii "Missing target URL") }
        fetchCalls := [] }
    else
      match fetchFn decodedUrl (userAgent.getD (ascii "Mozilla/5.0")) with
      | .error msg =>
        { result := .ok { status := 500,
                          headers := [(ascii "Content-Type", ascii "text/plain")],
                          body := .raw (ascii "Proxy Error: " ++ msg) }
          fetchCalls := [decodedUrl] }
      | .ok targetResponse =>
        let contentType :=
          (getHeader targetResponse.headers (ascii "content-type")).getD []
        if !(jsIncludes contentType (ascii "text/html")) then
          { result := .ok { status := targetResponse.status,
                            headers := targetResponse.headers,
                            body := .raw targetResponse.body }
            fetchCalls := [decodedUrl] }
        else
          let headers :=
            setHeader
              (setHeader targetResponse.headers (ascii "X-Proxied-By")
                (ascii "Comet-Edge-Proxy"))
              (ascii "Access-Control-Allow-Origin") (ascii "*")
          { result := .ok { status := targetResponse.status,
                            headers := headers,
                            body := .stream (cometTransform parse cfg
                              targetResponse.body) }
            fetchCalls := [decodedUrl] }

/-- A parser yielding no structural events. -/
def nullParse : JSStr → List HtmlEvent := fun _ => []

/-- An upstream that always fails with a network error. -/
def noFetch : JSStr → JSStr → Except JSStr Upstream :=
  fun _ _ => .error (ascii "network down")

/-- C3, counterexample: the claim is false as stated, because the
server-side `rewriteUrl` in `src/api/proxy.js` has no `blob:` check: on the
input `blob:x` it is not the identity but routes it through `/proxy/`. -/
theorem C3_counterexample : rewriteUrl (ascii "blob:x") ≠ ascii "blob:x" := by
  decide

/-- C3 (amended): the server-side `rewriteUrl` is the identity on empty,
`data:` and `javascript:` inputs, and the client-side `URLUtils.rewrite` is
the identity on those and additionally on `blob:` inputs. -/
theorem C3_identity_on_unrewritable (u : JSStr)
    (normalize : JSStr → Option JSStr) :
    ((u.isEmpty || jsStartsWith u (ascii "data:") ||
        jsStartsWith u (ascii "javascript:")) = true → rewriteUrl u = u) ∧
    ((u.isEmpty || jsStartsWith u (ascii "data:") ||
        jsStartsWith u (ascii "javascript:") ||
        jsStartsWith u (ascii "blob:")) = true →
      URLUtils.rewrite normalize u = u) := by
  constructor
  · intro h
    unfold rewriteUrl
    rw [h]
    rfl
  · intro h
    unfold URLUtils.rewrite
    rw [h]
    rfl

theorem C3_identity_witness :
    rewriteUrl (ascii "data:text") = ascii "data:text" ∧
    URLUtils.rewrite (fun s => some s) (ascii "blob:x") = ascii "blob:x" :=
  ⟨(C3_identity_on_unrewritable (ascii "data:text") (fun s => some s)).1
      (by decide),
   (C3_identity_on_unrewritable (ascii "blob:x") (fun s => some s)).2
      (by decide)⟩

/-- C5: for every absolute URL `u` (with normalization `nu` produced by the
host URL parser) not using a `data:`, `javascript:` or `blob:` scheme,
`decode (encode u)` equals the normalization of `u`; and the server-side
`rewriteUrl` produces a path starting with `/proxy/` whose remainder, once
decoded, recovers `u`. The hypotheses `validUtf8 u` and `validUtf8 nu` say
that `u` and `nu` are UTF-8 byte sequences of strings, which every URL
string satisfies by construction. -/
theorem C5_codec_roundtrip (normalize : JSStr → Option JSStr) (u nu : JSStr)
    (hu : validUtf8 u = true) (hnu : validUtf8 nu = true)
    (hnorm : normalize u = some nu)
    (hne : u.isEmpty = false)
    (hd : jsStartsWith u (ascii "data:") = false)
    (hj : jsStartsWith u (ascii "javascript:") = false)
    (_hb : jsStartsWith u (ascii "blob:") = false) :
    URLUtils.decode (URLUtils.encode normalize u) = nu ∧
    jsStartsWith (rewriteUrl u) (ascii "/proxy/") = true ∧
    URLUtils.decode ((rewriteUrl u).drop (ascii "/proxy/").length) = u := by
  have hcond : (u.isEmpty || jsStartsWith u (ascii "data:") ||
      jsStartsWith u (ascii "javascript:")) = false := by
    rw [hne, hd, hj]
    rfl
  have hrw : rewriteUrl u = ascii "/proxy/" ++ encodeURIComponentBytes u := by
    unfold rewriteUrl
    rw [hcond]
    rfl
  refine ⟨?_, ?_, ?_⟩
  · unfold URLUtils.encode URLUtils.decode
    rw [hnorm, decode_encode nu hnu]
  · rw [hrw]
    unfold jsStartsWith
    rw [List.isPrefixOf_iff_prefix]
    exact List.prefix_append _ _
  · rw [hrw, List.drop_left]
    unfold URLUtils.decode
    rw [decode_encode u hu]

theorem C5_codec_roundtrip_witness :
    URLUtils.decode
        (URLUtils.encode (fun s => some s) (ascii "https://example.com/x")) =
      ascii "https://example.com/x" ∧
    jsStartsWith (rewriteUrl (ascii "https://example.com/x"))
      (ascii "/proxy/") = true ∧
    URLUtils.decode
        ((rewriteUrl (ascii "https://example.com/x")).drop
          (ascii "/proxy/").length) =
      ascii "https://example.com/x" :=
  C5_codec_roundtrip (fun s => some s) (ascii "https://example.com/x")
    (ascii "https://example.com/x") (by decide) (by decide) (by decide)
    (by decide) (by decide) (by decide) (by decide)

/-- C6: the bootstrap script reference is appended to the head for every
configuration; the debug-tool script reference and the body control element
are appended exactly when the debug flag is not explicitly `false`, and an
explicit `false` suppresses both while the bootstrap reference remains. -/
theorem C6_default_on_debug (cfg : EdgeConfig) :
    bootstrapMarkup ∈ headHandlerElement cfg ∧
    (erudaMarkup ∈ headHandlerElement cfg ↔ erudaFlag cfg ≠ some false) ∧
    (debugTriggerMarkup ∈ bodyHandlerElement cfg ↔ erudaFlag cfg ≠ some false) ∧
    (erudaFlag cfg = some false →
      headHandlerElement cfg = [bootstrapMarkup] ∧
      bodyHandlerElement cfg = []) := by
  have hne : ¬(erudaMarkup = bootstrapMarkup) := by decide
  unfold headHandlerElement bodyHandlerElement erudaFlag
  by_cases h : (cfg.DEV_FEATURES.getD {}).eruda = some false <;>
    simp [h, hne]

def cfgErudaOff : EdgeConfig :=
  { DEV_FEATURES := some { eruda := some false, customTheme := none }
    ENCODING_KEY := []
    BLOCKLIST := [] }

theorem C6_default_on_debug_witness :
    headHandlerElement cfgErudaOff = [bootstrapMarkup] ∧
    bodyHandlerElement cfgErudaOff = [] :=
  (C6_default_on_debug cfgErudaOff).2.2.2 (by decide)

/-- C7: whenever the upstream response's declared content type does not
contain `text/html`, the handler forwards status, headers and body
byte-for-byte unchanged, bypassing the rewrite engine. -/
theorem C7_nonhtml_passthrough (cfg : EdgeConfig)
    (parse : JSStr → List HtmlEvent)
    (fetchFn : JSStr → JSStr → Except JSStr Upstream)
    (pathname : JSStr) (userAgent : Option JSStr) (u : JSStr) (up : Upstream)
    (hdec : decodeURIComponentBytes (jsReplaceFirst pathname (ascii "/proxy/")) =
      some u)
    (hne : u.isEmpty = false)
    (hfetch : fetchFn u (userAgent.getD (ascii "Mozilla/5.0")) = .ok up)
    (hct : jsIncludes ((getHeader up.headers (ascii "content-type")).getD [])
      (ascii "text/html") = false) :
    (handler cfg parse fetchFn pathname userAgent).result =
      .ok { status := up.status, headers := up.headers, body := .raw up.body } := by
  simp only [handler]
  rw [hdec]
  simp [hne, hfetch, hct]

def jsonUpstream : Upstream :=
  { status := 200
    headers := [(ascii "content-type", ascii "application/json")]
    body := ascii "[1,2]" }

def jsonFetch : JSStr → JSStr → Except JSStr Upstream :=
  fun _ _ => .ok jsonUpstream

theorem C7_nonhtml_passthrough_witness :
    (handler getEdgeConfig nullParse jsonFetch (ascii "/proxy/x") none).result =
      .ok { status := jsonUpstream.status, headers := jsonUpstream.headers,
            body := .raw jsonUpstream.body } :=
  C7_nonhtml_passthrough getEdgeConfig nullParse jsonFetch (ascii "/proxy/x")
    none (ascii "x") jsonUpstream (by decide) (by decide) rfl (by decide)

/-- C9: when the decoded target path segment is empty the handler responds
with status 400 and performs no upstream fetch. -/
theorem C9_empty_target (cfg : EdgeConfig) (parse : JSStr → List HtmlEvent)
    (fetchFn : JSStr → JSStr → Except JSStr Upstream)
    (pathname : JSStr) (userAgent : Option JSStr)
    (h : decodeURIComponentBytes (jsReplaceFirst pathname (ascii "/proxy/")) =
      some []) :
    (handler cfg parse fetchFn pathname userAgent).result =
      .ok { status := 400, headers := [],
            body := .raw (ascii "Missing target URL") } ∧
    (handler cfg parse fetchFn pathname userAgent).fetchCalls = [] := by
  simp only [handler]
  rw [h]
  exact ⟨rfl, rfl⟩

theorem C9_empty_target_witness :
    (handler getEdgeConfig nullParse noFetch (ascii "/proxy/") none).result =
      .ok { status := 400, headers := [],
            body := .raw (ascii "Missing target URL") } ∧
    (handler getEdgeConfig nullParse noFetch (ascii "/proxy/") none).fetchCalls = [] :=
  C9_empty_target getEdgeConfig nullParse noFetch (ascii "/proxy/") none
    (by decide)

/-- C10: the handler's behavior is independent of the `BLOCKLIST` field of
the configuration: two configs differing only in `BLOCKLIST` produce the
same result and the same upstream fetches for every request. -/
theorem C10_blocklist_independent (cfg : EdgeConfig) (blk : List JSStr)
    (parse : JSStr → List HtmlEvent)
    (fetchFn : JSStr → JSStr → Except JSStr Upstream)
    (pathname : JSStr) (userAgent : Option JSStr) :
    handler { cfg with BLOCKLIST := blk } parse fetchFn pathname userAgent =
      handler cfg parse fetchFn pathname userAgent := rfl

theorem getHeader_cons_pos (p : JSStr × JSStr) (hs : List (JSStr × JSStr))
    (n : JSStr) (h : lowerStr p.1 = lowerStr n) :
    getHeader (p :: hs) n = some p.2 := by
  simp [getHeader, List.find?_cons, h]

theorem getHeader_cons_neg (p : JSStr × JSStr) (hs : List (JSStr × JSStr))
    (n : JSStr) (h : ¬(lowerStr p.1 = lowerStr n)) :
    getHeader (p :: hs) n = getHeader hs n := by
  simp [getHeader, List.find?_cons, h]

theorem getHeader_map_set_self (hs : List (JSStr × JSStr)) (n v : JSStr)
    (h : hs.any (fun p => decide (lowerStr p.1 = lowerStr n)) = true) :
    getHeader
      (hs.map (fun p => if lowerStr p.1 = lowerStr n then (p.1, v) else p)) n =
      some v := by
  induction hs with
  | nil => simp at h
  | cons p hs ih =>
    simp only [List.map_cons]
    by_cases hp : lowerStr p.1 = lowerStr n
    · rw [if_pos hp]
      exact getHeader_cons_pos _ _ _ hp
    · rw [if_neg hp, getHeader_cons_neg _ _ _ hp]
      have h' : hs.any (fun p => decide (lowerStr p.1 = lowerStr n)) = true := by
        simpa [hp] using h
      exact ih h'

theorem getHeader_append_self (hs : List (JSStr × JSStr)) (n v : JSStr)
    (h : hs.any (fun p => decide (lowerStr p.1 = lowerStr n)) = false) :
    getHeader (hs ++ [(n, v)]) n = some v := by
  induction hs with
  | nil => exact getHeader_cons_pos _ _ _ rfl
  | cons p hs ih =>
    rw [List.any_cons] at h
    have hp : ¬(lowerStr p.1 = lowerStr n) := by
      intro e
      simp [e] at h
    have h' : hs.any (fun p => decide (lowerStr p.1 = lowerStr n)) = false := by
      simpa [hp] using h
    rw [List.cons_append, getHeader_cons_neg _ _ _ hp]
    exact ih h'

theorem getHeader_setHeader_self (hs : List (JSStr × JSStr)) (n v : JSStr) :
    getHeader (setHeader hs n v) n = some v := by
  unfold setHeader
  by_cases h : hs.any (fun p => decide (lowerStr p.1 = lowerStr n)) = true
  · rw [if_pos h]
    exact getHeader_map_set_self hs n v h
  · rw [if_neg h]
    exact getHeader_append_self hs n v (by
      cases hx : hs.any (fun p => decide (lowerStr p.1 = lowerStr n)) with
      | false => rfl
      | true => exact absurd hx h)

theorem getHeader_map_set_ne (hs : List (JSStr × JSStr)) (n m v : JSStr)
    (hne : lowerStr n ≠ lowerStr m) :
    getHeader
      (hs.map (fun p => if lowerStr p.1 = lowerStr m then (p.1, v) else p)) n =
      getHeader hs n := by
  induction hs with
  | nil => rfl
  | cons p hs ih =>
    simp only [List.map_cons]
    by_cases hp : lowerStr p.1 = lowerStr m
    · have hq : ¬(lowerStr p.1 = lowerStr n) := by
        rw [hp]
        exact fun e => hne e.symm
      rw [if_pos hp, getHeader_cons_neg (p.1, v) _ _ hq,
        getHeader_cons_neg p _ _ hq]
      exact ih
    · rw [if_neg hp]
      by_cases hq : lowerStr p.1 = lowerStr n
      · rw [getHeader_cons_pos _ _ _ hq, getHeader_cons_pos _ _ _ hq]
      · rw [getHeader_cons_neg _ _ _ hq, getHeader_cons_neg _ _ _ hq]
        exact ih

theorem getHeader_append_ne (hs : List (JSStr × JSStr)) (n m v : JSStr)
    (hne : lowerStr n ≠ lowerStr m) :
    getHeader (hs ++ [(m, v)]) n = getHeader hs n := by
  induction hs with
  | nil =>
    have h : ¬(lowerStr m = lowerStr n) := fun e => hne e.symm
    exact getHeader_cons_neg _ _ _ h
  | cons p hs ih =>
    rw [List.cons_append]
    by_cases hq : lowerStr p.1 = lowerStr n
    · rw [getHeader_cons_pos _ _ _ hq, getHeader_cons_pos _ _ _ hq]
    · rw [getHeader_cons_neg _ _ _ hq, getHeader_cons_neg _ _ _ hq]
      exact ih

theorem getHeader_setHeader_ne (hs : List (JSStr × JSStr)) (n m v : JSStr)
    (hne : lowerStr n ≠ lowerStr m) :
    getHeader (setHeader hs m v) n = getHeader hs n := by
  unfold setHeader
  by_cases h : hs.any (fun p => decide (lowerStr p.1 = lowerStr m)) = true
  · rw [if_pos h]
    exact getHeader_map_set_ne hs n m v hne
  · rw [if_neg h]
    exact getHeader_append_ne hs n m v hne

/-- C2, counterexample: the claim is false as stated. On the non-HTML
passthrough branch the handler returns the upstream response unchanged, so a
request proxying a JSON upstream is answered without either `X-Proxied-By`
or `Access-Control-Allow-Origin`. -/
theorem C2_counterexample :
    (handler getEdgeConfig nullParse jsonFetch (ascii "/proxy/x") none).result =
      .ok { status := 200,
            headers := [(ascii "content-type", ascii "application/json")],
            body := .raw (ascii "[1,2]") } ∧
    getHeader [(ascii "content-type", ascii "application/json")]
      (ascii "X-Proxied-By") = none ∧
    getHeader [(ascii "content-type", ascii "application/json")]
      (ascii "Access-Control-Allow-Origin") = none :=
  ⟨rfl, by decide, by decide⟩

/-- C2 (amended): the two proxy headers are set with their documented values
on the HTML-rewriting branch only; the non-HTML passthrough branch and the
error responses do not add them. -/
theorem C2_proxy_headers_on_html_branch (cfg : EdgeConfig)
    (parse : JSStr → List HtmlEvent)
    (fetchFn : JSStr → JSStr → Except JSStr Upstream)
    (pathname : JSStr) (userAgent : Option JSStr) (u : JSStr) (up : Upstream)
    (hdec : decodeURIComponentBytes (jsReplaceFirst pathname (ascii "/proxy/")) =
      some u)
    (hne : u.isEmpty = false)
    (hfetch : fetchFn u (userAgent.getD (ascii "Mozilla/5.0")) = .ok up)
    (hct : jsIncludes ((getHeader up.headers (ascii "content-type")).getD [])
      (ascii "text/html") = true) :
    ∃ r : Response, (handler cfg parse fetchFn pathname userAgent).result = .ok r ∧
      getHeader r.headers (ascii "X-Proxied-By") =
        some (ascii "Comet-Edge-Proxy") ∧
      getHeader r.headers (ascii "Access-Control-Allow-Origin") =
        some (ascii "*") := by
  have hres : (handler cfg parse fetchFn pathname userAgent).result =
      .ok { status := up.status,
            headers := setHeader
              (setHeader up.headers (ascii "X-Proxied-By")
                (ascii "Comet-Edge-Proxy"))
              (ascii "Access-Control-Allow-Origin") (ascii "*"),
            body := .stream (cometTransform parse cfg up.body) } := by
    simp only [handler]
    rw [hdec]
    simp [hne, hfetch, hct]
  refine ⟨_, hres, ?_, ?_⟩
  · rw [getHeader_setHeader_ne _ _ _ _ (by decide), getHeader_setHeader_self]
  · rw [getHeader_setHeader_self]

def htmlUpstream : Upstream :=
  { status := 200
    headers := [(ascii "content-type", ascii "text/html")]
    body := ascii "<html><head></head><body></body></html>" }

def htmlFetch : JSStr → JSStr → Except JSStr Upstream :=
  fun _ _ => .ok htmlUpstream

theorem C2_proxy_headers_witness :
    ∃ r : Response,
      (handler getEdgeConfig nullParse htmlFetch (ascii "/proxy/x") none).result =
        .ok r ∧
      getHeader r.headers (ascii "X-Proxied-By") =
        some (ascii "Comet-Edge-Proxy") ∧
      getHeader r.headers (ascii "Access-Control-Allow-Origin") =
        some (ascii "*") :=
  C2_proxy_headers_on_html_branch getEdgeConfig nullParse htmlFetch
    (ascii "/proxy/x") none (ascii "x") htmlUpstream (by decide) (by decide)
    rfl (by decide)

/-- C4, counterexample: the claim is false as stated. `decodeURIComponent`
runs before the `try` block, so a proxy path segment with invalid
percent-encoding — here `%C3`, a well-formed escape that is not a valid
UTF-8 encoding of a code point — makes the handler throw an uncaught
`URIError` instead of returning a response. -/
theorem C4_counterexample :
    (handler getEdgeConfig nullParse htmlFetch (ascii "/proxy/%C3") none).result =
      .error uriMalformedMsg := rfl

/-- C4 (amended): for every request whose proxy path segment percent-decodes
successfully, the handler returns a response; a missing target yields status
400 with a plain-text body, and an upstream fetch failure yields status 500
with a plain-text body stating the failure. A segment whose decoding throws
— on a malformed escape or on escapes that are not a valid UTF-8 encoding of
a code point — instead escapes as an uncaught `URIError`. -/
theorem C4_response_on_valid_encoding (cfg : EdgeConfig)
    (parse : JSStr → List HtmlEvent)
    (fetchFn : JSStr → JSStr → Except JSStr Upstream)
    (pathname : JSStr) (userAgent : Option JSStr) (u : JSStr)
    (hdec : decodeURIComponentBytes (jsReplaceFirst pathname (ascii "/proxy/")) =
      some u) :
    ∃ r : Response,
      (handler cfg parse fetchFn pathname userAgent).result = .ok r ∧
      (u.isEmpty = true →
        r.status = 400 ∧ r.body = .raw (ascii "Missing target URL")) ∧
      (∀ msg, u.isEmpty = false →
        fetchFn u (userAgent.getD (ascii "Mozilla/5.0")) = .error msg →
        r.status = 500 ∧ r.body = .raw (ascii "Proxy Error: " ++ msg) ∧
        getHeader r.headers (ascii "Content-Type") = some (ascii "text/plain")) := by
  simp only [handler]
  rw [hdec]
  dsimp only
  cases hemp : u.isEmpty with
  | true =>
    refine ⟨_, rfl, fun _ => ⟨rfl, rfl⟩, ?_⟩
    intro msg he _
    exact absurd he (by decide)
  | false =>
    cases hf : fetchFn u (userAgent.getD (ascii "Mozilla/5.0")) with
    | error msg =>
      rw [if_neg (by decide : ¬(false = true))]
      refine ⟨_, rfl, ?_, ?_⟩
      · intro he
        exact absurd he Bool.false_ne_true
      · intro msg2 _ hf2
        cases hf2
        exact ⟨rfl, rfl, rfl⟩
    | ok up =>
      rw [if_neg (by decide : ¬(false = true))]
      dsimp only
      cases hct : jsIncludes
          ((getHeader up.headers (ascii "content-type")).getD [])
          (ascii "text/html") with
      | false =>
        rw [if_pos (by decide : (!false) = true)]
        refine ⟨_, rfl, ?_, ?_⟩
        · intro he
          exact absurd he Bool.false_ne_true
        · intro msg2 _ hf2
          simp at hf2
      | true =>
        rw [if_neg (by decide : ¬((!true) = true))]
        refine ⟨_, rfl, ?_, ?_⟩
        · intro he
          exact absurd he Bool.false_ne_true
        · intro msg2 _ hf2
          simp at hf2

theorem C4_response_witness :
    ∃ r : Response,
      (handler getEdgeConfig nullParse noFetch (ascii "/proxy/x") none).result =
        .ok r ∧
      ((ascii "x").isEmpty = true →
        r.status = 400 ∧ r.body = .raw (ascii "Missing target URL")) ∧
      (∀ msg, (ascii "x").isEmpty = false →
        noFetch (ascii "x") ((none : Option JSStr).getD (ascii "Mozilla/5.0")) =
          .error msg →
        r.status = 500 ∧ r.body = .raw (ascii "Proxy Error: " ++ msg) ∧
        getHeader r.headers (ascii "Content-Type") = some (ascii "text/plain")) :=
  C4_response_on_valid_encoding getEdgeConfig nullParse noFetch
    (ascii "/proxy/x") none (ascii "x") (by decide)

/-- Recognizer of the head structural event. -/
def isHeadEvent : HtmlEvent → Bool
  | .headEl => true
  | _ => false

/-- Recognizer of the body structural event. -/
def isBodyEvent : HtmlEvent → Bool
  | .bodyEl => true
  | _ => false

/-- Number of injected fragments equal to `m` in an output stream. -/
def countInjected (out : List OutEvent) (m : String) : Nat :=
  out.countP (fun e => match e with
    | .injected s => decide (s = m)
    | _ => false)

theorem countInjected_append (a b : List OutEvent) (m : String) :
    countInjected (a ++ b) m = countInjected a m + countInjected b m := by
  unfold countInjected
  exact List.countP_append _ _ _

theorem countInjected_event_bootstrap (cfg : EdgeConfig) (e : HtmlEvent) :
    countInjected (rewriteEvent cfg e) bootstrapMarkup =
      if isHeadEvent e then 1 else 0 := by
  cases e with
  | text c => rfl
  | el tag attrs => rfl
  | bodyEl =>
    by_cases h : (cfg.DEV_FEATURES.getD {}).eruda = some false <;>
      simp [rewriteEvent, bodyHandlerElement, isHeadEvent, countInjected, h] <;>
      decide
  | headEl =>
    by_cases h : (cfg.DEV_FEATURES.getD {}).eruda = some false <;>
      simp [rewriteEvent, headHandlerElement, isHeadEvent, countInjected, h] <;>
      decide

theorem countInjected_event_eruda (cfg : EdgeConfig) (e : HtmlEvent) :
    countInjected (rewriteEvent cfg e) erudaMarkup ≤
      if isHeadEvent e then 1 else 0 := by
  cases e with
  | text c => exact Nat.le_refl 0
  | el tag attrs => exact Nat.le_refl 0
  | bodyEl =>
    by_cases h : (cfg.DEV_FEATURES.getD {}).eruda = some false <;>
      simp [rewriteEvent, bodyHandlerElement, isHeadEvent, countInjected, h] <;>
      decide
  | headEl =>
    by_cases h : (cfg.DEV_FEATURES.getD {}).eruda = some false <;>
      simp [rewriteEvent, headHandlerElement, isHeadEvent, countInjected, h] <;>
      decide

theorem countInjected_event_trigger (cfg : EdgeConfig) (e : HtmlEvent) :
    countInjected (rewriteEvent cfg e) debugTriggerMarkup ≤
      if isBodyEvent e then 1 else 0 := by
  cases e with
  | text c => exact Nat.le_refl 0
  | el tag attrs => exact Nat.le_refl 0
  | bodyEl =>
    by_cases h : (cfg.DEV_FEATURES.getD {}).eruda = some false <;>
      simp [rewriteEvent, bodyHandlerElement, isBodyEvent, countInjected, h] <;>
      decide
  | headEl =>
    by_cases h : (cfg.DEV_FEATURES.getD {}).eruda = some false <;>
      simp [rewriteEvent, headHandlerElement, isBodyEvent, countInjected, h] <;>
      decide

theorem countInjected_flatMap_le (cfg : EdgeConfig) (m : String)
    (p : HtmlEvent → Bool)
    (h : ∀ e, countInjected (rewriteEvent cfg e) m ≤ if p e then 1 else 0)
    (es : List HtmlEvent) :
    countInjected (es.flatMap (rewriteEvent cfg)) m ≤ es.countP p := by
  induction es with
  | nil => exact Nat.le_refl 0
  | cons e es ih =>
    rw [List.flatMap_cons, countInjected_append, List.countP_cons]
    have he := h e
    by_cases hp : p e = true <;> simp [hp] at he ⊢ <;> omega

/-- A host parser reporting the head structural event twice, as for a
document with two `head`-like elements. -/
def doubleHeadParse : JSStr → List HtmlEvent := fun _ => [.headEl, .headEl]

/-- C1, counterexample: the claim is false as stated. Neither `HeadHandler`
nor `BodyHandler` tracks whether it already fired, so when the engine
observes the head structural event twice the bootstrap markup is injected
twice. -/
theorem C1_counterexample :
    ¬(countInjected
        (cometTransform doubleHeadParse getEdgeConfig
          (ascii "<head></head><head></head>"))
        bootstrapMarkup ≤ 1) := by decide

/-- C1 (amended): each injection fires once per observed structural event:
when the parser reports the head (resp. body) event at most once, the
bootstrap and debug-tool markup (resp. the debug trigger markup) appear in
the output at most once; a document whose head event fires twice receives
the head markup twice. -/
theorem C1_injection_once_per_event (cfg : EdgeConfig)
    (parse : JSStr → List HtmlEvent) (body : JSStr)
    (hh : (parse body).countP isHeadEvent ≤ 1)
    (hb : (parse body).countP isBodyEvent ≤ 1) :
    countInjected (cometTransform parse cfg body) bootstrapMarkup ≤ 1 ∧
    countInjected (cometTransform parse cfg body) erudaMarkup ≤ 1 ∧
    countInjected (cometTransform parse cfg body) debugTriggerMarkup ≤ 1 := by
  unfold cometTransform
  refine ⟨?_, ?_, ?_⟩
  · exact le_trans
      (countInjected_flatMap_le cfg bootstrapMarkup isHeadEvent
        (fun e => (countInjected_event_bootstrap cfg e).le) (parse body)) hh
  · exact le_trans
      (countInjected_flatMap_le cfg erudaMarkup isHeadEvent
        (countInjected_event_eruda cfg) (parse body)) hh
  · exact le_trans
      (countInjected_flatMap_le cfg debugTriggerMarkup isBodyEvent
        (countInjected_event_trigger cfg) (parse body)) hb

/-- A host parser reporting one head and one body event. -/
def singleParse : JSStr → List HtmlEvent := fun _ => [.headEl, .bodyEl]

theorem C1_injection_once_witness :
    countInjected (cometTransform singleParse getEdgeConfig []) bootstrapMarkup ≤ 1 ∧
    countInjected (cometTransform singleParse getEdgeConfig []) erudaMarkup ≤ 1 ∧
    countInjected (cometTransform singleParse getEdgeConfig []) debugTriggerMarkup ≤ 1 :=
  C1_injection_once_per_event getEdgeConfig singleParse [] (by decide) (by decide)

/-- Positional relation between an element's attribute list and its rewritten
form: names agree at every position, and an attribute whose name is outside
the rewritable set is unchanged. -/
def attrRel (p q : JSStr × JSStr) : Prop :=
  p.1 = q.1 ∧ (p.1 ∉ rewritableAttrs → q = p)

theorem attrRel_trans {p q r : JSStr × JSStr} (h₁ : attrRel p q)
    (h₂ : attrRel q r) : attrRel p r := by
  refine ⟨h₁.1.trans h₂.1, fun hn => ?_⟩
  have hq : q = p := h₁.2 hn
  have hn2 : q.1 ∉ rewritableAttrs := by
    rw [← h₁.1]
    exact hn
  rw [h₂.2 hn2, hq]

theorem forall2_attrRel_trans {l₁ l₂ l₃ : List (JSStr × JSStr)}
    (h₁ : List.Forall₂ attrRel l₁ l₂) (h₂ : List.Forall₂ attrRel l₂ l₃) :
    List.Forall₂ attrRel l₁ l₃ := by
  induction h₁ generalizing l₃ with
  | nil =>
    cases h₂
    exact .nil
  | cons hr _ ih =>
    cases h₂ with
    | cons hr2 ht2 => exact .cons (attrRel_trans hr hr2) (ih ht2)

theorem forall2_attrRel_refl (l : List (JSStr × JSStr)) :
    List.Forall₂ attrRel l l :=
  List.forall₂_same.mpr fun _ _ => ⟨rfl, fun _ => rfl⟩

theorem forall2_setAttribute (acc : List (JSStr × JSStr)) (a w : JSStr)
    (ha : a ∈ rewritableAttrs) :
    List.Forall₂ attrRel acc (setAttribute acc a w) := by
  unfold setAttribute
  induction acc with
  | nil => exact .nil
  | cons p acc ih =>
    rw [List.map_cons]
    refine .cons ?_ ih
    by_cases hp : p.1 = a
    · rw [if_pos hp]
      have hmem : p.1 ∈ rewritableAttrs := by
        rw [hp]
        exact ha
      exact ⟨rfl, fun hn => absurd hmem hn⟩
    · rw [if_neg hp]
      exact ⟨rfl, fun _ => rfl⟩

theorem forall2_rewriteStep (attrs acc : List (JSStr × JSStr)) (a : JSStr)
    (ha : a ∈ rewritableAttrs)
    (h : List.Forall₂ attrRel attrs acc) :
    List.Forall₂ attrRel attrs (rewriteStep acc a) := by
  unfold rewriteStep
  cases hg : getAttribute acc a with
  | none => exact h
  | some v =>
    dsimp only
    by_cases hv : v.isEmpty = true
    · rw [if_pos hv]
      exact h
    · rw [if_neg hv]
      exact forall2_attrRel_trans h (forall2_setAttribute acc a (rewriteUrl v) ha)

theorem forall2_foldl (l : List JSStr) (hl : ∀ a ∈ l, a ∈ rewritableAttrs)
    (attrs acc : List (JSStr × JSStr)) (h : List.Forall₂ attrRel attrs acc) :
    List.Forall₂ attrRel attrs (l.foldl rewriteStep acc) := by
  induction l generalizing acc with
  | nil => exact h
  | cons a l ih =>
    rw [List.foldl_cons]
    exact ih (fun x hx => hl x (List.mem_cons_of_mem a hx)) _
      (forall2_rewriteStep attrs acc a (hl a (List.mem_cons_self a l)) h)

theorem getAttribute_none_iff (attrs : List (JSStr × JSStr)) (a : JSStr) :
    getAttribute attrs a = none ↔ ∀ p ∈ attrs, p.1 ≠ a := by
  unfold getAttribute
  simp [List.find?_eq_none]

theorem getAttribute_of_mem_nodup (attrs : List (JSStr × JSStr))
    (hnd : (attrs.map Prod.fst).Nodup) (p : JSStr × JSStr) (hp : p ∈ attrs) :
    getAttribute attrs p.1 = some p.2 := by
  induction attrs with
  | nil => cases hp
  | cons q attrs ih =>
    rcases List.mem_cons.mp hp with hpq | hpm
    · subst hpq
      unfold getAttribute
      rw [List.find?_cons_of_pos _ (by simp)]
      rfl
    · have hq1 : q.1 ≠ p.1 := by
        intro e
        have : q.1 ∉ attrs.map Prod.fst := (List.nodup_cons.mp (by simpa using hnd)).1
        exact this (e ▸ List.mem_map_of_mem Prod.fst hpm)
      unfold getAttribute
      rw [List.find?_cons_of_neg _ (by simp [hq1])]
      exact ih (List.nodup_cons.mp (by simpa using hnd)).2 hpm

/-- The effect of one `forEach` iteration in closed form, assuming the
attribute names of the element are distinct (as the HTML parser guarantees). -/
theorem rewriteStep_closed (attrs : List (JSStr × JSStr)) (a : JSStr)
    (hnd : (attrs.map Prod.fst).Nodup) :
    rewriteStep attrs a =
      attrs.map (fun p =>
        if p.1 = a ∧ p.2.isEmpty = false then (p.1, rewriteUrl p.2) else p) := by
  unfold rewriteStep
  cases hg : getAttribute attrs a with
  | none =>
    have hno : ∀ p ∈ attrs, p.1 ≠ a := (getAttribute_none_iff attrs a).mp hg
    have : attrs.map (fun p =>
        if p.1 = a ∧ p.2.isEmpty = false then (p.1, rewriteUrl p.2) else p) =
        attrs.map id :=
      List.map_congr_left fun p hp => by simp [hno p hp]
    rw [this, List.map_id]
  | some v =>
    have hval : ∀ p ∈ attrs, p.1 = a → p.2 = v := by
      intro p hp he
      have := getAttribute_of_mem_nodup attrs hnd p hp
      rw [he, hg] at this
      exact (Option.some.injEq _ _ ▸ this.symm)
    dsimp only
    by_cases hv : v.isEmpty = true
    · rw [if_pos hv]
      have : attrs.map (fun p =>
          if p.1 = a ∧ p.2.isEmpty = false then (p.1, rewriteUrl p.2) else p) =
          attrs.map id := by
        refine List.map_congr_left fun p hp => ?_
        by_cases he : p.1 = a
        · have : p.2.isEmpty = true := by rw [hval p hp he]; exact hv
          simp [this]
        · simp [he]
      rw [this, List.map_id]
    · rw [if_neg hv]
      unfold setAttribute
      refine List.map_congr_left fun p hp => ?_
      by_cases he : p.1 = a
      · have h2 : p.2 = v := hval p hp he
        have hne : p.2.isEmpty = false := by
          rw [h2]
          cases hx : v.isEmpty with
          | false => rfl
          | true => exact absurd hx hv
        have hvne : ¬(v = []) := by
          intro e
          rw [e] at hv
          exact hv rfl
        rw [if_pos he]
        simp [he, hne, h2, hvne]
      · rw [if_neg he]
        simp [he]

theorem map_fst_of_rewriteMap (attrs : List (JSStr × JSStr)) (a : JSStr) :
    (attrs.map (fun p =>
        if p.1 = a ∧ p.2.isEmpty = false then (p.1, rewriteUrl p.2) else p)).map
        Prod.fst =
      attrs.map Prod.fst := by
  rw [List.map_map]
  refine List.map_congr_left fun p _ => ?_
  dsimp only [Function.comp]
  by_cases he : p.1 = a ∧ p.2.isEmpty = false
  · rw [if_pos he]
  · rw [if_neg he]

theorem foldl_rewriteStep_closed (l : List JSStr) (attrs : List (JSStr × JSStr))
    (hnd : (attrs.map Prod.fst).Nodup) (hl : l.Nodup) :
    l.foldl rewriteStep attrs =
      attrs.map (fun p =>
        if p.1 ∈ l ∧ p.2.isEmpty = false then (p.1, rewriteUrl p.2) else p) := by
  induction l generalizing attrs with
  | nil =>
    have : attrs.map (fun p =>
        if p.1 ∈ ([] : List JSStr) ∧ p.2.isEmpty = false then
          (p.1, rewriteUrl p.2) else p) = attrs.map id :=
      List.map_congr_left fun p _ => by simp
    rw [List.foldl_nil, this, List.map_id]
  | cons a l ih =>
    have hal : a ∉ l := (List.nodup_cons.mp hl).1
    rw [List.foldl_cons, rewriteStep_closed attrs a hnd,
      ih _ (by rw [map_fst_of_rewriteMap]; exact hnd) (List.nodup_cons.mp hl).2,
      List.map_map]
    refine List.map_congr_left fun p _ => ?_
    by_cases he : p.1 = a
    · by_cases hv : p.2.isEmpty = false
      · have h1 : (if p.1 = a ∧ p.2.isEmpty = false then (p.1, rewriteUrl p.2)
            else p) = (p.1, rewriteUrl p.2) := by simp [he, hv]
        simp only [Function.comp, h1]
        have h2 : p.1 ∉ l := by
          rw [he]
          exact hal
        simp [h2, he, hv, hal]
      · have hv2 : p.2.isEmpty = true := by
          cases hx : p.2.isEmpty with
          | true => rfl
          | false => exact absurd hx hv
        have h1 : (if p.1 = a ∧ p.2.isEmpty = false then (p.1, rewriteUrl p.2)
            else p) = p := by simp [hv2]
        simp only [Function.comp, h1]
        have h2 : p.1 ∉ l := by
          rw [he]
          exact hal
        simp [h2, hv2]
    · have h1 : (if p.1 = a ∧ p.2.isEmpty = false then (p.1, rewriteUrl p.2)
          else p) = p := by simp [he]
      simp only [Function.comp, h1]
      by_cases hm : p.1 ∈ l
      · have : p.1 ∈ a :: l := List.mem_cons_of_mem a hm
        simp [hm, this]
      · have : p.1 ∉ a :: l := by
          intro hx
          rcases List.mem_cons.mp hx with hx1 | hx2
          · exact he hx1
          · exact hm hx2
        simp [hm, this]

/-- C8: the attribute rewriter's frame property. Elements whose tag is not in
the configured selector are untouched; for matched elements, attribute names
and their order are preserved and every attribute outside the rewritable set
keeps its value; and (for the parser-guaranteed case of distinct attribute
names) the rewriter is exactly the pointwise map that replaces the values of
present, non-empty `href`/`src`/`action`/`data` attributes by `rewriteUrl`
of the old value. -/
theorem C8_attribute_rewriter_frame (tag : JSStr)
    (attrs : List (JSStr × JSStr)) :
    (tag ∉ rewritableTags → processTag tag attrs = attrs) ∧
    List.Forall₂ attrRel attrs (processTag tag attrs) ∧
    ((attrs.map Prod.fst).Nodup → tag ∈ rewritableTags →
      processTag tag attrs =
        attrs.map (fun p =>
          if p.1 ∈ rewritableAttrs ∧ p.2.isEmpty = false then
            (p.1, rewriteUrl p.2) else p)) := by
  refine ⟨fun ht => ?_, ?_, fun hnd ht => ?_⟩
  · unfold processTag
    rw [if_neg ht]
  · unfold processTag
    by_cases ht : tag ∈ rewritableTags
    · rw [if_pos ht]
      exact forall2_foldl rewritableAttrs (fun a h => h) attrs attrs
        (forall2_attrRel_refl attrs)
    · rw [if_neg ht]
      exact forall2_attrRel_refl attrs
  · unfold processTag
    rw [if_pos ht]
    exact foldl_rewriteStep_closed rewritableAttrs attrs hnd (by decide)

theorem C8_attribute_rewriter_witness :
    processTag (ascii "div")
        [(ascii "href", ascii "x"), (ascii "id", ascii "n")] =
      [(ascii "href", ascii "x"), (ascii "id", ascii "n")] ∧
    processTag (ascii "a")
        [(ascii "href", ascii "x"), (ascii "id", ascii "n")] =
      [(ascii "href", rewriteUrl (ascii "x")), (ascii "id", ascii "n")] :=
  ⟨(C8_attribute_rewriter_frame (ascii "div")
      [(ascii "href", ascii "x"), (ascii "id", ascii "n")]).1 (by decide),
   by
    have h := (C8_attribute_rewriter_frame (ascii "a")
      [(ascii "href", ascii "x"), (ascii "id", ascii "n")]).2.2
      (by decide) (by decide)
    rw [h]
    decide⟩

end Comet
